import Mathlib

/-!
Verification of the vika API microservice core
(`backend/python_service/vika_api_server.py`): the in-process cache store,
the sliding-window rate limiter, the cache-key builder, the recursive
folder-tree fetcher and the batch endpoint, shallowly embedded in Lean.

Time (Python `time.time()`) is modelled as a rational number of seconds
passed explicitly to each operation.  Python dictionaries are modelled as
association lists with the usual lookup/insert/delete operations.
-/

namespace VikaApiServer

/-! ### Python dict model -/

/-- Lookup in a Python dict modelled as an association list
(first binding wins, as dict keys are unique). -/
def dlookup {β : Type} : List (String × β) → String → Option β
  | [], _ => none
  | (k', v) :: rest, k => if k' = k then some v else dlookup rest k

/-- Python dict assignment `d[k] = v`: overwrite in place, or append a new binding. -/
def dinsert {β : Type} : List (String × β) → String → β → List (String × β)
  | [], k, v => [(k, v)]
  | (k', v') :: rest, k, v =>
    if k' = k then (k, v) :: rest else (k', v') :: dinsert rest k v

/-- Python dict deletion `del d[k]`. -/
def ddel {β : Type} : List (String × β) → String → List (String × β)
  | [], _ => []
  | (k', v') :: rest, k =>
    if k' = k then ddel rest k else (k', v') :: ddel rest k

theorem dlookup_dinsert_self {β : Type} (m : List (String × β)) (k : String) (v : β) :
    dlookup (dinsert m k v) k = some v := by
  induction m with
  | nil => simp [dinsert, dlookup]
  | cons hd tl ih =>
    obtain ⟨k', v'⟩ := hd
    by_cases h : k' = k
    · simp [dinsert, h, dlookup]
    · simp [dinsert, h, dlookup, ih]

theorem dlookup_dinsert_ne {β : Type} (m : List (String × β)) (k k' : String) (v : β)
    (h : k' ≠ k) : dlookup (dinsert m k v) k' = dlookup m k' := by
  have h' : ¬ k = k' := fun he => h he.symm
  induction m with
  | nil => simp [dinsert, dlookup, h']
  | cons hd tl ih =>
    obtain ⟨k₀, v₀⟩ := hd
    by_cases h0 : k₀ = k
    · subst h0
      simp [dinsert, dlookup, h']
    · by_cases h1 : k₀ = k'
      · simp [dinsert, h0, dlookup, h1, h]
      · simp [dinsert, h0, dlookup, h1, ih]

theorem dlookup_ddel_self {β : Type} (m : List (String × β)) (k : String) :
    dlookup (ddel m k) k = none := by
  induction m with
  | nil => simp [ddel, dlookup]
  | cons hd tl ih =>
    obtain ⟨k', v'⟩ := hd
    by_cases h : k' = k
    · simp [ddel, h, ih]
    · simp [ddel, h, dlookup, ih]

theorem dlookup_ddel_ne {β : Type} (m : List (String × β)) (k k' : String)
    (h : k' ≠ k) : dlookup (ddel m k) k' = dlookup m k' := by
  have h' : ¬ k = k' := fun he => h he.symm
  induction m with
  | nil => simp [ddel]
  | cons hd tl ih =>
    obtain ⟨k₀, v₀⟩ := hd
    by_cases h0 : k₀ = k
    · subst h0
      simp [ddel, dlookup, h', ih]
    · simp [ddel, h0, dlookup, ih]

theorem dlookup_ddel {β : Type} (m : List (String × β)) (k k' : String) :
    dlookup (ddel m k) k' = if k = k' then none else dlookup m k' := by
  by_cases h : k = k'
  · subst h; simp [dlookup_ddel_self]
  · simp [h, dlookup_ddel_ne m k k' (fun he => h he.symm)]

/-! ### Substring test (Python `pattern in key`) -/

/-- Test `charsStartWith pat l`: `pat` occurs at the start of `l`. -/
def charsStartWith : List Char → List Char → Bool
  | [], _ => true
  | _ :: _, [] => false
  | a :: as, b :: bs => a = b && charsStartWith as bs

/-- Test `charsContain pat l`: `pat` occurs contiguously somewhere inside `l`. -/
def charsContain (pat : List Char) : List Char → Bool
  | [] => charsStartWith pat []
  | b :: bs => charsStartWith pat (b :: bs) || charsContain pat bs

/-- Python's `pattern in key` substring test on strings. -/
def strContains (key pattern : String) : Bool :=
  charsContain pattern.data key.data

/-! ### Cache store (`cache` global, `get_from_cache`, `set_cache`,
`clear_cache_pattern`) -/

/-- One value of the `cache` dict: `{'data': ..., 'timestamp': ...}`. -/
structure CacheEntry (α : Type) where
  data : α
  timestamp : ℚ
  deriving DecidableEq, Repr

/-- The `cache` global dict. -/
def CacheState (α : Type) : Type := List (String × CacheEntry α)

instance {α : Type} [DecidableEq α] : DecidableEq (CacheState α) :=
  inferInstanceAs (DecidableEq (List (String × CacheEntry α)))

/-- Read `get_from_cache(key, max_age)`: return the entry's data if its age is
below `max_age`; an expired entry is deleted as a side effect.  Returns the
read result together with the cache state after the call. -/
def get_from_cache {α : Type} (c : CacheState α) (key : String) (now max_age : ℚ) :
    Option α × CacheState α :=
  match dlookup c key with
  | some entry =>
    if now - entry.timestamp < max_age then (some entry.data, c)
    else (none, ddel c key)
  | none => (none, c)

/-- Write `set_cache(key, data)`: unconditionally store `data` under `key`,
stamped with the current time. -/
def set_cache {α : Type} (c : CacheState α) (key : String) (data : α) (now : ℚ) :
    CacheState α :=
  dinsert c key ⟨data, now⟩

/-- Invalidation `clear_cache_pattern(pattern)`: collect every present key that contains
`pattern` as a substring, then delete each of them. -/
def clear_cache_pattern {α : Type} (c : CacheState α) (pattern : String) :
    CacheState α :=
  let keysToDelete := (c.map Prod.fst).filter (fun k => strContains k pattern)
  keysToDelete.foldl (fun acc k => ddel acc k) c

theorem dlookup_foldl_ddel {β : Type} (ks : List String) (m : List (String × β))
    (k : String) :
    dlookup (ks.foldl (fun acc k' => ddel acc k') m) k =
      if k ∈ ks then none else dlookup m k := by
  induction ks generalizing m with
  | nil => simp
  | cons hd tl ih =>
    rw [List.foldl_cons, ih, dlookup_ddel]
    by_cases hmem : k ∈ tl
    · simp [hmem]
    · by_cases h0 : hd = k
      · simp [hmem, h0]
      · have h0' : ¬ k = hd := fun he => h0 he.symm
        simp [hmem, h0, h0']

theorem dlookup_none_of_not_mem_keys {β : Type} (m : List (String × β)) (k : String)
    (h : k ∉ m.map Prod.fst) : dlookup m k = none := by
  induction m with
  | nil => rfl
  | cons hd tl ih =>
    obtain ⟨k', v'⟩ := hd
    simp only [List.map_cons, List.mem_cons] at h
    push_neg at h
    have h1 : ¬ k' = k := fun he => h.1 he.symm
    simp [dlookup, h1, ih h.2]

/-- Key-level characterisation of `clear_cache_pattern`: exactly the keys
containing the pattern are removed, every other binding is untouched. -/
theorem dlookup_clear_cache_pattern {α : Type} (c : CacheState α)
    (pattern k : String) :
    dlookup (clear_cache_pattern c pattern) k =
      if strContains k pattern then none else dlookup c k := by
  show dlookup
      (((c.map Prod.fst).filter (fun k => strContains k pattern)).foldl
        (fun acc k => ddel acc k) c) k = _
  rw [dlookup_foldl_ddel]
  by_cases hc : strContains k pattern
  · simp only [hc, if_true]
    by_cases hm : k ∈ (c.map Prod.fst : List String)
    · simp [List.mem_filter, hm, hc]
    · simp [List.mem_filter, hm, dlookup_none_of_not_mem_keys (β := CacheEntry α) c k hm]
  · simp [List.mem_filter, hc]

/-! ### Rate limiter (`rate_limiter` global, `rate_limit_check`) -/

/-- The `rate_limiter` global dict: operation name to timestamp list. -/
def RLState : Type := List (String × List ℚ)

instance : DecidableEq RLState :=
  inferInstanceAs (DecidableEq (List (String × List ℚ)))

/-- Outcome of `rate_limit_check`: either the request is admitted, or an
`HTTPException` is raised carrying the HTTP status code 429 and the
configured QPS quota (in its detail message). -/
inductive RLResult : Type where
  | allowed : RLResult
  | denied (statusCode : ℕ) (qpsLimit : ℤ) : RLResult
  deriving DecidableEq, Repr

/-- Admission check `rate_limit_check(operation)`: materialise the operation's entry if
absent, prune timestamps older than 1 second, then either deny (HTTP 429,
carrying the quota) or append the current time and allow. -/
def rate_limit_check (st : RLState) (operation : String) (now : ℚ) (qpsLimit : ℤ) :
    RLResult × RLState :=
  let st1 := match dlookup st operation with
    | none => dinsert st operation []
    | some _ => st
  let window := (dlookup st1 operation).getD []
  let pruned := window.filter (fun t => decide (now - t < 1))
  let st2 := dinsert st1 operation pruned
  if qpsLimit ≤ (pruned.length : ℤ) then (.denied 429 qpsLimit, st2)
  else (.allowed, dinsert st2 operation (pruned ++ [now]))

/-! ### Cache key builder (`get_cache_key`)

Python compares strings lexicographically by code point; we embed that
comparison directly as an executable function on the character lists. -/

/-- Code point of a character. -/
def cpt (c : Char) : ℕ := c.toNat

/-- Strict lexicographic code-point comparison: Python `<` on strings,
acting on their character lists. -/
def chListLt : List Char → List Char → Bool
  | _, [] => false
  | [], _ :: _ => true
  | a :: as, b :: bs =>
    if cpt a < cpt b then true
    else if cpt b < cpt a then false
    else chListLt as bs

/-- Python `s < t` on strings. -/
def pyStrLt (s t : String) : Bool := chListLt s.data t.data

/-- Python `s <= t` on strings (in this total order, `s <= t` iff `¬ t < s`). -/
def pyStrLe (s t : String) : Bool := !(chListLt t.data s.data)

theorem chListLt_nil_right (a : List Char) : chListLt a [] = false := by
  cases a <;> rfl

theorem chListLt_irrefl (l : List Char) : chListLt l l = false := by
  induction l with
  | nil => rfl
  | cons a as ih => simp [chListLt, ih]

theorem chListLt_asymm (a b : List Char) (h : chListLt a b = true) :
    chListLt b a = false := by
  induction a generalizing b with
  | nil =>
    cases b with
    | nil => simp [chListLt] at h
    | cons c cs => exact chListLt_nil_right _
  | cons x xs ih =>
    cases b with
    | nil => simp [chListLt_nil_right] at h
    | cons y ys =>
      rcases Nat.lt_trichotomy (cpt x) (cpt y) with hlt | heq | hgt
      · have h1 : ¬ cpt y < cpt x := by omega
        simp [chListLt, h1, hlt]
      · have h1 : ¬ cpt x < cpt y := by omega
        have h2 : ¬ cpt y < cpt x := by omega
        simp only [chListLt, if_neg h1, if_neg h2] at h ⊢
        exact ih ys h
      · have h1 : ¬ cpt x < cpt y := by omega
        simp [chListLt, h1, hgt] at h

theorem chListLt_eq_of_not_lt (a b : List Char) (hab : chListLt a b = false)
    (hba : chListLt b a = false) : a = b := by
  induction a generalizing b with
  | nil =>
    cases b with
    | nil => rfl
    | cons c cs => simp [chListLt] at hab
  | cons x xs ih =>
    cases b with
    | nil => simp [chListLt] at hba
    | cons y ys =>
      rcases Nat.lt_trichotomy (cpt x) (cpt y) with hlt | heq | hgt
      · simp [chListLt, hlt] at hab
      · have h1 : ¬ cpt x < cpt y := by omega
        have h2 : ¬ cpt y < cpt x := by omega
        simp only [chListLt, if_neg h1, if_neg h2] at hab hba
        have hx : x = y := Char.ext (UInt32.ext heq)
        rw [hx, ih ys hab hba]
      · simp [chListLt, hgt] at hba

theorem chListLt_trans (a b c : List Char) (hab : chListLt a b = true)
    (hbc : chListLt b c = true) : chListLt a c = true := by
  induction a generalizing b c with
  | nil =>
    cases c with
    | nil => rw [chListLt_nil_right] at hbc; cases hbc
    | cons z zs => rfl
  | cons x xs ih =>
    cases b with
    | nil => rw [chListLt_nil_right] at hab; cases hab
    | cons y ys =>
      cases c with
      | nil => rw [chListLt_nil_right] at hbc; cases hbc
      | cons z zs =>
        by_cases hxy : cpt x < cpt y
        · by_cases hyz : cpt y < cpt z
          · simp [chListLt, (by omega : cpt x < cpt z)]
          · by_cases hzy : cpt z < cpt y
            · exfalso
              simp [chListLt, hyz, hzy] at hbc
            · simp [chListLt, (by omega : cpt x < cpt z)]
        · by_cases hyx : cpt y < cpt x
          · exfalso
            simp [chListLt, hxy, hyx] at hab
          · simp only [chListLt, if_neg hxy, if_neg hyx] at hab
            by_cases hyz : cpt y < cpt z
            · simp [chListLt, (by omega : cpt x < cpt z)]
            · by_cases hzy : cpt z < cpt y
              · exfalso
                simp [chListLt, hyz, hzy] at hbc
              · simp only [chListLt, if_neg hyz, if_neg hzy] at hbc
                simp only [chListLt, if_neg (by omega : ¬ cpt x < cpt z),
                  if_neg (by omega : ¬ cpt z < cpt x)]
                exact ih ys zs hab hbc

theorem chListLt_not_lt_trans (a b c : List Char) (hba : chListLt b a = false)
    (hcb : chListLt c b = false) : chListLt c a = false := by
  cases hbc : chListLt b c with
  | true =>
    cases hab : chListLt a b with
    | true => exact chListLt_asymm a c (chListLt_trans a b c hab hbc)
    | false =>
      have : a = b := chListLt_eq_of_not_lt a b hab hba
      rw [← this] at hcb
      exact hcb
  | false =>
    have : b = c := chListLt_eq_of_not_lt b c hbc hcb
    rw [← this]
    exact hba

/-- Python tuple comparison on `(name, value)` pairs, as used by
`sorted(kwargs.items())`: names compare first, values break ties. -/
def pairLe (a b : String × String) : Prop :=
  pyStrLt a.1 b.1 = true ∨ (a.1 = b.1 ∧ pyStrLe a.2 b.2 = true)

instance pairLe.decRel : DecidableRel pairLe := fun _ _ =>
  inferInstanceAs (Decidable (_ ∨ _))

instance pairLe.total : IsTotal (String × String) pairLe :=
  ⟨fun a b => by
    cases h1 : pyStrLt a.1 b.1 with
    | true => exact Or.inl (Or.inl h1)
    | false =>
      cases h2 : pyStrLt b.1 a.1 with
      | true => exact Or.inr (Or.inl h2)
      | false =>
        have he : a.1 = b.1 :=
          String.ext (chListLt_eq_of_not_lt _ _ h1 h2)
        cases h3 : chListLt b.2.data a.2.data with
        | false => exact Or.inl (Or.inr ⟨he, by simp [pyStrLe, h3]⟩)
        | true =>
          have h4 : chListLt a.2.data b.2.data = false := chListLt_asymm _ _ h3
          exact Or.inr (Or.inr ⟨he.symm, by simp [pyStrLe, h4]⟩)⟩

instance pairLe.trans : IsTrans (String × String) pairLe :=
  ⟨fun a b c hab hbc => by
    rcases hab with h1 | ⟨h1, h1'⟩
    · rcases hbc with h2 | ⟨h2, _⟩
      · exact Or.inl (chListLt_trans _ _ _ h1 h2)
      · exact Or.inl (by rw [pyStrLt, ← h2]; exact h1)
    · rcases hbc with h2 | ⟨h2, h2'⟩
      · exact Or.inl (by rw [pyStrLt, h1]; exact h2)
      · refine Or.inr ⟨h1.trans h2, ?_⟩
        simp only [pyStrLe, Bool.not_eq_true'] at h1' h2' ⊢
        exact chListLt_not_lt_trans _ _ _ h1' h2'⟩

instance pairLe.antisymm : IsAntisymm (String × String) pairLe :=
  ⟨fun a b hab hba => by
    obtain ⟨a1, a2⟩ := a
    obtain ⟨b1, b2⟩ := b
    rcases hab with h1 | ⟨h1, h1'⟩ <;> rcases hba with h2 | ⟨h2, h2'⟩
    · simp only [pyStrLt] at h1 h2
      rw [chListLt_asymm _ _ h1] at h2
      cases h2
    · simp only at h1 h2
      rw [h2, pyStrLt, chListLt_irrefl] at h1
      cases h1
    · simp only at h1 h2
      rw [h1, pyStrLt, chListLt_irrefl] at h2
      cases h2
    · simp only [pyStrLe, Bool.not_eq_true'] at h1' h2'
      simp only at h1
      subst h1
      have : a2.data = b2.data := chListLt_eq_of_not_lt _ _ h2' h1'
      rw [String.ext this]⟩

/-- Rendering `f"{k}={v}"` of one keyword argument (values arrive already rendered
through Python `str`, so `None` appears as `"None"`). -/
def fmtParam (kv : String × String) : String := kv.1 ++ "=" ++ kv.2

/-- Python `":".join(parts)`. -/
def joinColon : List String → String
  | [] => ""
  | [x] => x
  | x :: y :: rest => x ++ ":" ++ joinColon (y :: rest)

/-- The separator-and-element tail of a colon join. -/
def joinTail : List String → String
  | [] => ""
  | x :: rest => ":" ++ x ++ joinTail rest

theorem joinColon_cons (x : String) (l : List String) :
    joinColon (x :: l) = x ++ joinTail l := by
  induction l generalizing x with
  | nil => simp [joinColon, joinTail]
  | cons y rest ih =>
    rw [joinColon, ih, joinTail]
    simp [String.append_assoc]

theorem joinTail_append (A B : List String) :
    joinTail (A ++ B) = joinTail A ++ joinTail B := by
  induction A with
  | nil => simp [joinTail]
  | cons x rest ih =>
    rw [List.cons_append, joinTail, joinTail, ih]
    simp [String.append_assoc]

/-- Key builder `get_cache_key(operation, **kwargs)`: the operation name followed by
the keyword arguments sorted as Python `sorted(kwargs.items())`, each
rendered `k=v`, all joined with `":"`. -/
def get_cache_key (operation : String) (kwargs : List (String × String)) : String :=
  joinColon (operation :: (kwargs.insertionSort pairLe).map fmtParam)

example :
    get_cache_key "records" [("view_id", "None"), ("datasheet_id", "dst1")] =
      "records:datasheet_id=dst1:view_id=None" := by rfl

theorem insertionSort_eq_of_perm (ps qs : List (String × String)) (h : ps.Perm qs) :
    ps.insertionSort pairLe = qs.insertionSort pairLe :=
  List.eq_of_perm_of_sorted
    ((List.perm_insertionSort pairLe ps).trans
      (h.trans (List.perm_insertionSort pairLe qs).symm))
    (List.sorted_insertionSort pairLe ps) (List.sorted_insertionSort pairLe qs)

/-- Inserting `(nm, v)` into a list none of whose names is `nm` puts it at
a position that does not depend on `v`. -/
theorem orderedInsert_split (nm : String) (L : List (String × String))
    (hL : ∀ kv ∈ L, kv.1 ≠ nm) :
    ∃ pre post, ∀ v : String,
      L.orderedInsert pairLe (nm, v) = pre ++ (nm, v) :: post := by
  induction L with
  | nil => exact ⟨[], [], fun v => rfl⟩
  | cons b t ih =>
    have hb : b.1 ≠ nm := hL b (List.mem_cons_self b t)
    have ht : ∀ kv ∈ t, kv.1 ≠ nm := fun kv hkv => hL kv (List.mem_cons_of_mem b hkv)
    cases hlt : pyStrLt nm b.1 with
    | true =>
      refine ⟨[], b :: t, fun v => ?_⟩
      rw [List.orderedInsert, if_pos (show pairLe (nm, v) b from Or.inl hlt)]
      rfl
    | false =>
      obtain ⟨pre, post, hsplit⟩ := ih ht
      refine ⟨b :: pre, post, fun v => ?_⟩
      rw [List.orderedInsert, if_neg, hsplit v, List.cons_append]
      intro hc
      rcases hc with h1 | ⟨h1, _⟩
      · rw [hlt] at h1
        cases h1
      · exact hb h1.symm

theorem get_cache_key_ne_of_value_ne (op nm v1 v2 : String)
    (rest : List (String × String)) (hv : v1 ≠ v2)
    (hr : ∀ kv ∈ rest, kv.1 ≠ nm) :
    get_cache_key op ((nm, v1) :: rest) ≠ get_cache_key op ((nm, v2) :: rest) := by
  intro heq
  have hsorted : ∀ kv ∈ rest.insertionSort pairLe, kv.1 ≠ nm := by
    intro kv hkv
    exact hr kv ((List.mem_insertionSort pairLe).mp hkv)
  obtain ⟨pre, post, hsplit⟩ := orderedInsert_split nm _ hsorted
  have e1 : ∀ v : String, get_cache_key op ((nm, v) :: rest) =
      op ++ (joinTail (pre.map fmtParam) ++
        (":" ++ (nm ++ "=" ++ v) ++ joinTail (post.map fmtParam))) := by
    intro v
    show joinColon (op ::
      (((nm, v) :: rest).insertionSort pairLe).map fmtParam) = _
    simp only [List.insertionSort]
    rw [hsplit v, List.map_append, List.map_cons, joinColon_cons,
      joinTail_append, joinTail]
    simp [String.append_assoc, fmtParam]
  have h2 := congrArg String.data ((e1 v1).symm.trans (heq.trans (e1 v2)))
  simp only [String.data_append, List.append_assoc, List.append_cancel_left_eq,
    List.append_cancel_right_eq] at h2
  exact hv (String.ext h2)

/-! ### Claim C9 -/

/-- C9: the cache key is a deterministic function of the operation name and
the kwargs map — invariant under reordering of the keyword arguments
(they are sorted by name before concatenation) — and two calls that differ
in the value of one parameter (all other parameters equal) produce
different keys. -/
theorem get_cache_key_canonical :
    (∀ (op : String) (ps qs : List (String × String)), ps.Perm qs →
        get_cache_key op ps = get_cache_key op qs) ∧
    (∀ (op nm v1 v2 : String) (rest : List (String × String)), v1 ≠ v2 →
        (∀ kv ∈ rest, kv.1 ≠ nm) →
        get_cache_key op ((nm, v1) :: rest) ≠ get_cache_key op ((nm, v2) :: rest)) :=
  ⟨fun _ ps qs h => by
      rw [get_cache_key, get_cache_key, insertionSort_eq_of_perm ps qs h],
   fun op nm v1 v2 rest hv hr => get_cache_key_ne_of_value_ne op nm v1 v2 rest hv hr⟩

/-- Witness for C9, on the spec's own example: `get_cache_key("records",
datasheet_id="X", view_id=None)` is kwarg-order independent and differs
from the call with `datasheet_id="Y"`. -/
theorem get_cache_key_canonical_witness :
    get_cache_key "records" [("datasheet_id", "X"), ("view_id", "None")] =
        get_cache_key "records" [("view_id", "None"), ("datasheet_id", "X")] ∧
    get_cache_key "records" [("datasheet_id", "X"), ("view_id", "None")] ≠
        get_cache_key "records" [("datasheet_id", "Y"), ("view_id", "None")] :=
  ⟨get_cache_key_canonical.1 "records" _ _ (List.Perm.swap _ _ _),
   get_cache_key_canonical.2 "records" "datasheet_id" "X" "Y" [("view_id", "None")]
     (by decide) (by decide)⟩

/-! ### Claim C2 -/

/-- On the counterexample input the denied call evaluates like this. -/
theorem rate_limit_cex_eval :
    rate_limit_check [("default", [0, 4, 9/2])] "default" (9/2) 2 =
      (RLResult.denied 429 2, [("default", [4, 9/2])]) := by
  have f0 : decide ((9:ℚ)/2 - 0 < 1) = false := by
    rw [decide_eq_false_iff_not]
    norm_num
  have f4 : decide ((9:ℚ)/2 - 4 < 1) = true := by
    rw [decide_eq_true_eq]
    norm_num
  have f45 : decide ((9:ℚ)/2 - 9/2 < 1) = true := by
    rw [decide_eq_true_eq]
    norm_num
  have f0' : ¬ ((9:ℚ)/2 < 1) := by norm_num
  simp [rate_limit_check, dlookup, dinsert, List.filter_cons, f0, f4, f45, f0']

/-- C2 as stated is false on the code: a denied `rate_limit_check` call is
not state-preserving, because the pruning of timestamps older than one
second happens before the quota test and its result is kept.  Concretely:
with quota 2 and stored window `[0, 4, 4.5]` for `"default"` at time `4.5`,
the call is denied yet the stale timestamp `0` is dropped from the state. -/
theorem rate_limit_denied_mutates_cex :
    (rate_limit_check [("default", [0, 4, 9/2])] "default" (9/2) 2).1 =
        RLResult.denied 429 2 ∧
    (rate_limit_check [("default", [0, 4, 9/2])] "default" (9/2) 2).2 ≠
        [("default", [0, 4, 9/2])] := by
  rw [rate_limit_cex_eval]
  refine ⟨rfl, fun hc => ?_⟩
  have := congrArg (fun st : RLState => ((dlookup st "default").getD []).length) hc
  simp [dlookup] at this

/-- C2 amended: a denied `rate_limit_check` call appends no timestamp; the
state after the denied call is the prior state with the operation's window
replaced by its prune to the last 1.0 second (entries for every other
operation are untouched). -/
theorem rate_limit_denied_prunes_only (st : RLState) (op : String) (now : ℚ)
    (q : ℤ) (h : (rate_limit_check st op now q).1 = RLResult.denied 429 q) :
    dlookup (rate_limit_check st op now q).2 op =
        some (((dlookup st op).getD []).filter (fun t => decide (now - t < 1))) ∧
    ∀ op', op' ≠ op →
        dlookup (rate_limit_check st op now q).2 op' = dlookup st op' := by
  cases hdl : dlookup st op with
  | none =>
    simp only [rate_limit_check, hdl, Option.getD_none] at h ⊢
    simp only [dlookup_dinsert_self, Option.getD_some] at h ⊢
    split at h
    case isTrue hq =>
      refine ⟨?_, fun op' hne => ?_⟩
      · rw [if_pos hq, dlookup_dinsert_self]
      · rw [if_pos hq, dlookup_dinsert_ne _ _ _ _ hne, dlookup_dinsert_ne _ _ _ _ hne]
    case isFalse hq =>
      exact absurd h (by simp)
  | some w =>
    simp only [rate_limit_check, hdl, Option.getD_some] at h ⊢
    split at h
    case isTrue hq =>
      refine ⟨?_, fun op' hne => ?_⟩
      · rw [if_pos hq, dlookup_dinsert_self]
      · rw [if_pos hq, dlookup_dinsert_ne _ _ _ _ hne]
    case isFalse hq =>
      exact absurd h (by simp)

/-- Hypothesis fact for the amended-C2 witness: the counterexample call is
denied. -/
theorem rate_limit_cex_denied :
    (rate_limit_check [("default", [0, 4, 9/2])] "default" (9/2) 2).1 =
      RLResult.denied 429 2 := by
  rw [rate_limit_cex_eval]

/-- Witness for the amended C2 at the counterexample input. -/
theorem rate_limit_denied_prunes_only_witness :
    dlookup (rate_limit_check [("default", [0, 4, 9/2])] "default" (9/2) 2).2
        "default" =
      some (((dlookup [("default", [0, 4, 9/2])] "default").getD []).filter
        (fun t => decide ((9/2 : ℚ) - t < 1))) ∧
    ∀ op', op' ≠ "default" →
        dlookup (rate_limit_check [("default", [0, 4, 9/2])] "default" (9/2) 2).2
            op' =
          dlookup [("default", [0, 4, 9/2])] op' :=
  rate_limit_denied_prunes_only [("default", [0, 4, 9/2])] "default" (9/2) 2
    rate_limit_cex_denied

/-! ### Claim C3 -/

theorem rate_limit_step1 (op : String) (t1 : ℚ) :
    rate_limit_check [] op t1 2 = (RLResult.allowed, [(op, [t1])]) := by
  simp [rate_limit_check, dlookup, dinsert]

theorem rate_limit_step2 (op : String) (t1 t2 : ℚ) (hf : t2 - t1 < 1) :
    rate_limit_check [(op, [t1])] op t2 2 = (RLResult.allowed, [(op, [t1, t2])]) := by
  have d1 : decide (t2 - t1 < 1) = true := by
    rw [decide_eq_true_eq]
    exact hf
  simp [rate_limit_check, dlookup, dinsert, List.filter_cons, d1]

theorem rate_limit_step3 (op : String) (t1 t2 t3 : ℚ) (hf1 : t3 - t1 < 1)
    (hf2 : t3 - t2 < 1) :
    rate_limit_check [(op, [t1, t2])] op t3 2 =
      (RLResult.denied 429 2, [(op, [t1, t2])]) := by
  have d1 : decide (t3 - t1 < 1) = true := by
    rw [decide_eq_true_eq]
    exact hf1
  have d2 : decide (t3 - t2 < 1) = true := by
    rw [decide_eq_true_eq]
    exact hf2
  simp [rate_limit_check, dlookup, dinsert, List.filter_cons, d1, d2]

theorem rate_limit_step4 (op : String) (t1 t2 t4 : ℚ) (hg1 : ¬ (t4 - t1 < 1))
    (hg2 : ¬ (t4 - t2 < 1)) :
    rate_limit_check [(op, [t1, t2])] op t4 2 =
      (RLResult.allowed, [(op, [t4])]) := by
  have d1 : decide (t4 - t1 < 1) = false := by
    rw [decide_eq_false_iff_not]
    exact hg1
  have d2 : decide (t4 - t2 < 1) = false := by
    rw [decide_eq_false_iff_not]
    exact hg2
  simp [rate_limit_check, dlookup, dinsert, List.filter_cons, d1, d2]

/-- C3: with quota 2, starting from an empty window, three admission checks
within a 900 ms span yield allowed, allowed, denied — the denial being the
distinct rate-limit outcome (HTTP 429) carrying the configured quota — and
once more than one second has passed since the admitted timestamps, the
next check is allowed again. -/
theorem rate_limit_quota2_sequence (op : String) (t1 t2 t3 t4 : ℚ)
    (h12 : t1 ≤ t2) (h23 : t2 ≤ t3) (hspan : t3 - t1 ≤ 9/10)
    (hwait : 1 < t4 - t2) :
    (rate_limit_check [] op t1 2).1 = RLResult.allowed ∧
    (rate_limit_check (rate_limit_check [] op t1 2).2 op t2 2).1 =
        RLResult.allowed ∧
    (rate_limit_check (rate_limit_check (rate_limit_check [] op t1 2).2
        op t2 2).2 op t3 2).1 = RLResult.denied 429 2 ∧
    (rate_limit_check (rate_limit_check (rate_limit_check
        (rate_limit_check [] op t1 2).2 op t2 2).2 op t3 2).2 op t4 2).1 =
      RLResult.allowed := by
  have hf : t2 - t1 < 1 := by linarith
  have hf1 : t3 - t1 < 1 := by linarith
  have hf2 : t3 - t2 < 1 := by linarith
  have hg1 : ¬ (t4 - t1 < 1) := by
    rw [not_lt]
    linarith
  have hg2 : ¬ (t4 - t2 < 1) := by
    rw [not_lt]
    linarith
  simp only [rate_limit_step1, rate_limit_step2 op t1 t2 hf,
    rate_limit_step3 op t1 t2 t3 hf1 hf2, rate_limit_step4 op t1 t2 t4 hg1 hg2]
  simp

theorem c3_fact12 : (0 : ℚ) ≤ 1/2 := by norm_num

theorem c3_fact23 : (1/2 : ℚ) ≤ 9/10 := by norm_num

theorem c3_fact_span : (9/10 : ℚ) - 0 ≤ 9/10 := by norm_num

theorem c3_fact_wait : (1 : ℚ) < 2 - 1/2 := by norm_num

/-- Witness for C3 at times 0 s, 0.5 s, 0.9 s and 2 s. -/
theorem rate_limit_quota2_sequence_witness :
    (rate_limit_check [] "records" 0 2).1 = RLResult.allowed ∧
    (rate_limit_check (rate_limit_check [] "records" 0 2).2 "records" (1/2) 2).1 =
        RLResult.allowed ∧
    (rate_limit_check (rate_limit_check (rate_limit_check [] "records" 0 2).2
        "records" (1/2) 2).2 "records" (9/10) 2).1 = RLResult.denied 429 2 ∧
    (rate_limit_check (rate_limit_check (rate_limit_check
        (rate_limit_check [] "records" 0 2).2 "records" (1/2) 2).2 "records"
        (9/10) 2).2 "records" 2 2).1 = RLResult.allowed :=
  rate_limit_quota2_sequence "records" 0 (1/2) (9/10) 2 c3_fact12 c3_fact23
    c3_fact_span c3_fact_wait

/-! ### Claim C4 -/

/-- C4: a cache read returns the stored value exactly when the entry is
younger than `max_age`; an expired entry is deleted by the read and stays
absent for any later read with any (even larger) `max_age`; `set_cache`
overwrites unconditionally with the current timestamp, so an immediate
read with any positive `max_age` returns the value just stored. -/
theorem cache_get_set_expiry (α : Type) :
    (∀ (c : CacheState α) (k : String) (now ma : ℚ) (e : CacheEntry α),
        dlookup c k = some e →
        ((get_from_cache c k now ma).1 = some e.data ↔ now - e.timestamp < ma)) ∧
    (∀ (c : CacheState α) (k : String) (now ma : ℚ) (e : CacheEntry α),
        dlookup c k = some e → ¬ (now - e.timestamp < ma) →
        (get_from_cache c k now ma).1 = none ∧
        dlookup (get_from_cache c k now ma).2 k = none ∧
        ∀ now' ma' : ℚ,
          (get_from_cache (get_from_cache c k now ma).2 k now' ma').1 = none) ∧
    (∀ (c : CacheState α) (k : String) (v : α) (now ma : ℚ), 0 < ma →
        (get_from_cache (set_cache c k v now) k now ma).1 = some v) := by
  refine ⟨fun c k now ma e hdl => ?_, fun c k now ma e hdl hexp => ?_,
    fun c k v now ma hma => ?_⟩
  · by_cases hf : now - e.timestamp < ma
    · simp [get_from_cache, hdl, hf]
    · simp [get_from_cache, hdl, hf]
  · refine ⟨?_, ?_, fun now' ma' => ?_⟩
    · simp [get_from_cache, hdl, hexp]
    · simp [get_from_cache, hdl, hexp, dlookup_ddel_self]
    · simp [get_from_cache, hdl, hexp, dlookup_ddel_self]
  · simp [get_from_cache, set_cache, dlookup_dinsert_self, sub_self, hma]

theorem c4_fact_expired : ¬ ((400 : ℚ) - 0 < 300) := by norm_num

theorem c4_fact_maxage : (0 : ℚ) < 300 := by norm_num

/-- Witness for C4 on a one-entry cache. -/
theorem cache_get_set_expiry_witness :
    ((get_from_cache (set_cache ([] : CacheState String) "k" "v" 0) "k" 0 300).1 =
        some "v" ↔ (0 : ℚ) - 0 < 300) ∧
    ((get_from_cache (set_cache ([] : CacheState String) "k" "v" 0) "k" 400 300).1 =
        none ∧
      dlookup (get_from_cache (set_cache ([] : CacheState String) "k" "v" 0) "k"
          400 300).2 "k" = none ∧
      ∀ now' ma' : ℚ,
        (get_from_cache (get_from_cache (set_cache ([] : CacheState String) "k"
            "v" 0) "k" 400 300).2 "k" now' ma').1 = none) ∧
    ((get_from_cache (set_cache ([] : CacheState String) "k2" "v2" 7) "k2" 7 300).1 =
        some "v2") :=
  ⟨(cache_get_set_expiry String).1 (set_cache [] "k" "v" 0) "k" 0 300
      (CacheEntry.mk "v" 0) rfl,
   (cache_get_set_expiry String).2.1 (set_cache [] "k" "v" 0) "k" 400 300
      (CacheEntry.mk "v" 0) rfl c4_fact_expired,
   (cache_get_set_expiry String).2.2 [] "k2" "v2" 7 300 c4_fact_maxage⟩

/-! ### Claim C8 -/

/-- C8: pattern invalidation removes exactly the entries whose key contains
the pattern as a substring, leaving every other binding (value and
timestamp) unchanged; in particular, after `set_cache("records:X:page1", v)`
a `clear_cache_pattern("records:X")` removes that entry and a following
read returns absent. -/
theorem clear_cache_pattern_exact :
    (∀ (α : Type) (c : CacheState α) (pattern k : String),
        dlookup (clear_cache_pattern c pattern) k =
          if strContains k pattern then none else dlookup c k) ∧
    dlookup (clear_cache_pattern
        (set_cache ([] : CacheState String) "records:X:page1" "v" 0)
        "records:X") "records:X:page1" = none ∧
    (get_from_cache (clear_cache_pattern
        (set_cache ([] : CacheState String) "records:X:page1" "v" 0)
        "records:X") "records:X:page1" 1 300).1 = none := by
  refine ⟨fun α c pattern k => dlookup_clear_cache_pattern c pattern k, ?_, ?_⟩
  · rfl
  · rfl

/-! ### Claim C1 -/

/-- The cache key built by `get_records` (GET `/records/{datasheet_id}`),
with every optional parameter rendered through Python `str` (absent
optional parameters appear as `"None"`). -/
def get_records_cache_key
    (datasheet_id view_id page_size page_token filter_formula : String) : String :=
  get_cache_key "records"
    [("datasheet_id", datasheet_id), ("view_id", view_id),
     ("page_size", page_size), ("page_token", page_token),
     ("filter_formula", filter_formula)]

/-- Cache effect of a successful `create_records` (POST `/records`):
`clear_cache_pattern(f"records:{datasheet_id}")`. -/
def create_records_invalidate {α : Type} (c : CacheState α)
    (datasheet_id : String) : CacheState α :=
  clear_cache_pattern c ("records:" ++ datasheet_id)

/-- C1 is violated by the code: the list read caches under
`records:datasheet_id=dst1:...` while the create invalidates the substring
pattern `records:dst1`, which matches no such key; the pre-create cache
entry survives the create, and the immediately following list read (cache
age 1 s < 300 s) is answered from it. -/
theorem create_records_stale_list_cache_bug :
    get_records_cache_key "dst1" "None" "100" "None" "None" =
      "records:datasheet_id=dst1:filter_formula=None:page_size=100:page_token=None:view_id=None" ∧
    strContains (get_records_cache_key "dst1" "None" "100" "None" "None")
        ("records:" ++ "dst1") = false ∧
    create_records_invalidate
        (set_cache ([] : CacheState String)
          (get_records_cache_key "dst1" "None" "100" "None" "None") "stale-list" 0)
        "dst1" =
      set_cache ([] : CacheState String)
        (get_records_cache_key "dst1" "None" "100" "None" "None") "stale-list" 0 ∧
    (get_from_cache
        (create_records_invalidate
          (set_cache ([] : CacheState String)
            (get_records_cache_key "dst1" "None" "100" "None" "None")
            "stale-list" 0)
          "dst1")
        (get_records_cache_key "dst1" "None" "100" "None" "None") 1 300).1 =
      some "stale-list" := by
  have hfresh : (1 : ℚ) - 0 < 300 := by norm_num
  refine ⟨rfl, rfl, rfl, ?_⟩
  show (get_from_cache
      (set_cache ([] : CacheState String)
        (get_records_cache_key "dst1" "None" "100" "None" "None") "stale-list" 0)
      (get_records_cache_key "dst1" "None" "100" "None" "None") 1 300).1 =
    some "stale-list"
  simp [get_from_cache, set_cache, dlookup_dinsert_self, hfresh]

/-! ### Tree fetcher (`_fetch_children_recursively` and
GET `/spaces/{space_id}/datasheets`) -/

/-- A node of the upstream space as the external client presents it: the
fields the service reads (`id`, `name`, `type`, `icon`) together with the
behaviour of the upstream detail fetch for this node (`space.nodes.aget`):
whether that fetch succeeds, and the `children` list the returned detail
carries. -/
inductive UpNode : Type where
  | mk (nid nname ntype nicon : String) (fetchOk : Bool) (children : List UpNode)

def UpNode.nid : UpNode → String
  | .mk i _ _ _ _ _ => i

def UpNode.nname : UpNode → String
  | .mk _ nm _ _ _ _ => nm

def UpNode.ntype : UpNode → String
  | .mk _ _ ty _ _ _ => ty

def UpNode.nicon : UpNode → String
  | .mk _ _ _ ic _ _ => ic

/-- A node dict built by the service: `{"id", "name", "type", "icon",
"children"}` — the `children` key is always present, holding an ordered
sequence. -/
inductive TreeNode : Type where
  | mk (tid tname ttype ticon : String) (children : List TreeNode)

def TreeNode.tid : TreeNode → String
  | .mk i _ _ _ _ => i

def TreeNode.children : TreeNode → List TreeNode
  | .mk _ _ _ _ cs => cs

/-- Failures of the recursive fetch: an upstream detail-fetch error
(`space.nodes.aget` raising), or — were it ever reached — the
`ZeroDivisionError` of `1.0 / qps_limit`. -/
inductive FetchErr : Type where
  | upstream (nodeId : String)
  | divByZero
  deriving DecidableEq, Repr

/-- Python division, which raises `ZeroDivisionError` on a zero divisor. -/
def pyDiv (a b : ℚ) : Option ℚ := if b = 0 then none else some (a / b)

/-- The throttle guarding the upstream call for a folder:
`if qps_limit > 0: delay = 1.0 / qps_limit; await asyncio.sleep(delay)`.
Returns the slept delay (0 when the guard is not taken). -/
def throttleDelay (quota : ℤ) : Except FetchErr ℚ :=
  if 0 < quota then
    match pyDiv 1 (quota : ℚ) with
    | none => .error .divByZero
    | some d => .ok d
  else .ok 0

theorem throttleDelay_eq (q : ℤ) :
    throttleDelay q = .ok (if 0 < q then 1 / (q : ℚ) else 0) := by
  unfold throttleDelay pyDiv
  by_cases hq : 0 < q
  · have hne : (q : ℚ) ≠ 0 := by
      exact_mod_cast hq.ne'
    simp [hq, hne]
  · simp [hq]

/-- Attach the recursion's outcome on a folder's children to the folder's
own node dict (`node_dict['children'] = children_dicts`), propagating an
exception; `d` is the delay slept at this node. -/
def attachChildren (i nm ty ic : String) (d : ℚ)
    (r : Except FetchErr (List TreeNode × ℚ)) : Except FetchErr (TreeNode × ℚ) :=
  match r with
  | .error e => .error e
  | .ok (ts, dc) => .ok (.mk i nm ty ic ts, d + dc)

/-- Sequence one node's outcome with the rest of the loop, appending the
node's dict to the result list and propagating any exception. -/
def appendResult (r : Except FetchErr (TreeNode × ℚ))
    (rr : Except FetchErr (List TreeNode × ℚ)) :
    Except FetchErr (List TreeNode × ℚ) :=
  match r with
  | .error e => .error e
  | .ok (t, d1) =>
    match rr with
    | .error e => .error e
    | .ok (ts, d2) => .ok (t :: ts, d1 + d2)

mutual
/-- Loop body of `_fetch_children_recursively` for one node: build the
node dict with the `children` key preset to `[]`; for a `"Folder"` node,
sleep the throttle delay, fetch the folder's detail from the upstream
client, and when the fetched `children` list is non-empty, recurse into
the same algorithm and attach the result.  The second component
accumulates the total slept delay; any exception aborts the call. -/
def fetchChildrenStep (quota : ℤ) : UpNode → Except FetchErr (TreeNode × ℚ)
  | .mk i nm ty ic ok cs =>
    if ty = "Folder" then
      match throttleDelay quota with
      | .error e => .error e
      | .ok d =>
        if ok then
          if cs.isEmpty then .ok (.mk i nm ty ic [], d)
          else attachChildren i nm ty ic d (fetchChildrenRecursively quota cs)
        else .error (.upstream i)
    else .ok (.mk i nm ty ic [], 0)
termination_by n => sizeOf n

/-- Traversal `_fetch_children_recursively(space, nodes)`: process the input nodes in
order, appending one result dict per input node; any exception aborts the
whole call. -/
def fetchChildrenRecursively (quota : ℤ) :
    List UpNode → Except FetchErr (List TreeNode × ℚ)
  | [] => .ok ([], 0)
  | n :: rest =>
    appendResult (fetchChildrenStep quota n) (fetchChildrenRecursively quota rest)
termination_by l => sizeOf l
end

mutual
/-- Does the traversal of this node reach a folder whose detail fetch
fails? -/
def nodeHasFailingFolder : UpNode → Bool
  | .mk _ _ ty _ ok cs =>
    decide (ty = "Folder") && (!ok || listHasFailingFolder cs)
termination_by n => sizeOf n

/-- Does the traversal of this node list reach a folder whose detail fetch
fails? -/
def listHasFailingFolder : List UpNode → Bool
  | [] => false
  | n :: rest => nodeHasFailingFolder n || listHasFailingFolder rest
termination_by l => sizeOf l
end

/-- The HTTP 500 detail message `get_datasheets` wraps a tree-fetch
failure in. -/
def fetchErrDetail : FetchErr → String
  | .upstream i => "获取数据表列表失败: node " ++ i
  | .divByZero => "获取数据表列表失败: division by zero"

/-- GET `/spaces/{space_id}/datasheets`: cache lookup under the
`full_nodes_tree` key (1 h max age); on a miss, run the recursive fetch on
the space's top-level nodes, cache the tree and return it; a fetch failure
becomes an HTTP 500 error and nothing is cached.  Result: the HTTP outcome
(tree with its `from_cache` flag, or the error detail), paired with the
cache state after the call. -/
def get_datasheets (space_id : String) (top_level_nodes : List UpNode)
    (quota : ℤ) (c : CacheState (List TreeNode)) (now : ℚ) :
    Except String (List TreeNode × Bool) × CacheState (List TreeNode) :=
  let cache_key := get_cache_key "full_nodes_tree" [("space_id", space_id)]
  match get_from_cache c cache_key now 3600 with
  | (some cached, c1) => (.ok (cached, true), c1)
  | (none, c1) =>
    match fetchChildrenRecursively quota top_level_nodes with
    | .error e => (.error (fetchErrDetail e), c1)
    | .ok (ts, _) => (.ok (ts, false), set_cache c1 cache_key ts now)

/-- Canonical unfolding of `fetchChildrenStep`, with the throttle delay
evaluated. -/
theorem fetchChildrenStep_eq (q : ℤ) (i nm ty ic : String) (ok : Bool)
    (cs : List UpNode) :
    fetchChildrenStep q (.mk i nm ty ic ok cs) =
      if ty = "Folder" then
        if ok then
          if cs.isEmpty then
            .ok (.mk i nm ty ic [], if 0 < q then 1 / (q : ℚ) else 0)
          else
            attachChildren i nm ty ic (if 0 < q then 1 / (q : ℚ) else 0)
              (fetchChildrenRecursively q cs)
        else .error (.upstream i)
      else .ok (.mk i nm ty ic [], 0) := by
  rw [fetchChildrenStep, throttleDelay_eq]

/-- Canonical unfolding of `fetchChildrenRecursively` on a cons cell. -/
theorem fetchChildrenRecursively_cons (q : ℤ) (n : UpNode) (rest : List UpNode) :
    fetchChildrenRecursively q (n :: rest) =
      appendResult (fetchChildrenStep q n) (fetchChildrenRecursively q rest) := by
  rw [fetchChildrenRecursively]

theorem fetchChildrenRecursively_nil (q : ℤ) :
    fetchChildrenRecursively q ([] : List UpNode) = .ok ([], 0) := by
  rw [fetchChildrenRecursively]

theorem fetchChildrenStep_fields (q : ℤ) (i nm ty ic : String) (ok : Bool)
    (cs : List UpNode) (t : TreeNode) (d : ℚ)
    (h : fetchChildrenStep q (.mk i nm ty ic ok cs) = .ok (t, d)) :
    ∃ kids, t = .mk i nm ty ic kids := by
  rw [fetchChildrenStep_eq] at h
  by_cases hty : ty = "Folder"
  · rw [if_pos hty] at h
    cases ok with
    | false => simp at h
    | true =>
      rw [if_pos rfl] at h
      by_cases hemp : cs.isEmpty
      · rw [if_pos hemp] at h
        simp only [Except.ok.injEq, Prod.mk.injEq] at h
        exact ⟨[], h.1.symm⟩
      · rw [if_neg hemp] at h
        cases hrec : fetchChildrenRecursively q cs with
        | error e =>
          rw [hrec] at h
          simp [attachChildren] at h
        | ok p =>
          obtain ⟨ts, dc⟩ := p
          rw [hrec] at h
          simp only [attachChildren, Except.ok.injEq, Prod.mk.injEq] at h
          exact ⟨ts, h.1.symm⟩
  · rw [if_neg hty] at h
    simp only [Except.ok.injEq, Prod.mk.injEq] at h
    exact ⟨[], h.1.symm⟩

mutual
theorem fetchChildrenStep_fails (q : ℤ) (n : UpNode)
    (h : nodeHasFailingFolder n = true) :
    ∃ e, fetchChildrenStep q n = .error e := by
  obtain ⟨i, nm, ty, ic, ok, cs⟩ := n
  rw [nodeHasFailingFolder] at h
  simp only [Bool.and_eq_true, Bool.or_eq_true, decide_eq_true_eq,
    Bool.not_eq_true'] at h
  obtain ⟨hty, hrest⟩ := h
  subst hty
  cases ok with
  | false =>
    refine ⟨.upstream i, ?_⟩
    rw [fetchChildrenStep_eq, if_pos rfl]
    simp
  | true =>
    rcases hrest with hok | hcs
    · simp at hok
    · have hne : cs.isEmpty = false := by
        cases cs with
        | nil => simp [listHasFailingFolder] at hcs
        | cons c rest => rfl
      obtain ⟨e, he⟩ := fetchChildrenRecursively_fails q cs hcs
      refine ⟨e, ?_⟩
      rw [fetchChildrenStep_eq, if_pos rfl, if_pos rfl, if_neg (by rw [hne]; exact Bool.false_ne_true),
        he]
      rfl

theorem fetchChildrenRecursively_fails (q : ℤ) (ns : List UpNode)
    (h : listHasFailingFolder ns = true) :
    ∃ e, fetchChildrenRecursively q ns = .error e := by
  cases ns with
  | nil => simp [listHasFailingFolder] at h
  | cons n rest =>
    rw [listHasFailingFolder, Bool.or_eq_true] at h
    rcases h with hn | hr
    · obtain ⟨e, he⟩ := fetchChildrenStep_fails q n hn
      refine ⟨e, ?_⟩
      rw [fetchChildrenRecursively_cons, he]
      rfl
    · cases hstep : fetchChildrenStep q n with
      | error e =>
        refine ⟨e, ?_⟩
        rw [fetchChildrenRecursively_cons, hstep]
        rfl
      | ok p =>
        obtain ⟨t, d1⟩ := p
        obtain ⟨e, he⟩ := fetchChildrenRecursively_fails q rest hr
        refine ⟨e, ?_⟩
        rw [fetchChildrenRecursively_cons, hstep, he]
        rfl
end

mutual
theorem fetchChildrenStep_no_div (q : ℤ) (n : UpNode) :
    fetchChildrenStep q n ≠ Except.error FetchErr.divByZero := by
  obtain ⟨i, nm, ty, ic, ok, cs⟩ := n
  rw [fetchChildrenStep_eq]
  by_cases hty : ty = "Folder"
  · rw [if_pos hty]
    cases ok with
    | false => simp
    | true =>
      rw [if_pos rfl]
      by_cases hemp : cs.isEmpty
      · rw [if_pos hemp]
        simp
      · rw [if_neg hemp]
        cases hrec : fetchChildrenRecursively q cs with
        | error e =>
          have hcsnd := fetchChildrenRecursively_no_div q cs
          rw [hrec] at hcsnd
          simp only [attachChildren, ne_eq, Except.error.injEq] at hcsnd ⊢
          exact hcsnd
        | ok p =>
          obtain ⟨ts, dc⟩ := p
          simp [attachChildren]
  · rw [if_neg hty]
    simp

theorem fetchChildrenRecursively_no_div (q : ℤ) (ns : List UpNode) :
    fetchChildrenRecursively q ns ≠ Except.error FetchErr.divByZero := by
  cases ns with
  | nil =>
    rw [fetchChildrenRecursively_nil]
    simp
  | cons n rest =>
    rw [fetchChildrenRecursively_cons]
    cases hstep : fetchChildrenStep q n with
    | error e =>
      have hn := fetchChildrenStep_no_div q n
      rw [hstep] at hn
      simp only [appendResult, ne_eq, Except.error.injEq] at hn ⊢
      exact hn
    | ok p =>
      obtain ⟨t, d1⟩ := p
      cases hrec : fetchChildrenRecursively q rest with
      | error e =>
        have hr := fetchChildrenRecursively_no_div q rest
        rw [hrec] at hr
        simp only [appendResult, ne_eq, Except.error.injEq] at hr ⊢
        exact hr
      | ok p2 =>
        obtain ⟨ts, d2⟩ := p2
        simp [appendResult]
end

mutual
theorem fetchChildrenStep_delay_zero (q : ℤ) (n : UpNode) (t : TreeNode)
    (d : ℚ) (hq : q ≤ 0) (h : fetchChildrenStep q n = .ok (t, d)) : d = 0 := by
  obtain ⟨i, nm, ty, ic, ok, cs⟩ := n
  have hq' : ¬ 0 < q := not_lt.mpr hq
  rw [fetchChildrenStep_eq, if_neg hq'] at h
  by_cases hty : ty = "Folder"
  · rw [if_pos hty] at h
    cases ok with
    | false => simp at h
    | true =>
      rw [if_pos rfl] at h
      by_cases hemp : cs.isEmpty
      · rw [if_pos hemp] at h
        simp only [Except.ok.injEq, Prod.mk.injEq] at h
        exact h.2.symm
      · rw [if_neg hemp] at h
        cases hrec : fetchChildrenRecursively q cs with
        | error e =>
          rw [hrec] at h
          simp [attachChildren] at h
        | ok p =>
          obtain ⟨ts, dc⟩ := p
          have hdc : dc = 0 :=
            fetchChildrenRecursively_delay_zero q cs ts dc hq hrec
          rw [hrec] at h
          simp only [attachChildren, Except.ok.injEq, Prod.mk.injEq] at h
          rw [← h.2, hdc, zero_add]
  · rw [if_neg hty] at h
    simp only [Except.ok.injEq, Prod.mk.injEq] at h
    exact h.2.symm

theorem fetchChildrenRecursively_delay_zero (q : ℤ) (ns : List UpNode)
    (ts : List TreeNode) (d : ℚ) (hq : q ≤ 0)
    (h : fetchChildrenRecursively q ns = .ok (ts, d)) : d = 0 := by
  cases ns with
  | nil =>
    rw [fetchChildrenRecursively_nil] at h
    simp only [Except.ok.injEq, Prod.mk.injEq] at h
    exact h.2.symm
  | cons n rest =>
    rw [fetchChildrenRecursively_cons] at h
    cases hstep : fetchChildrenStep q n with
    | error e =>
      rw [hstep] at h
      simp [appendResult] at h
    | ok p =>
      obtain ⟨t, d1⟩ := p
      cases hrec : fetchChildrenRecursively q rest with
      | error e =>
        rw [hstep, hrec] at h
        simp [appendResult] at h
      | ok p2 =>
        obtain ⟨ts2, d2⟩ := p2
        have hd1 : d1 = 0 := fetchChildrenStep_delay_zero q n t d1 hq hstep
        have hd2 : d2 = 0 :=
          fetchChildrenRecursively_delay_zero q rest ts2 d2 hq hrec
        rw [hstep, hrec] at h
        simp only [appendResult, Except.ok.injEq, Prod.mk.injEq] at h
        rw [← h.2, hd1, hd2, zero_add]
end

theorem fetchChildrenRecursively_shape (q : ℤ) (ns : List UpNode)
    (ts : List TreeNode) (d : ℚ)
    (h : fetchChildrenRecursively q ns = .ok (ts, d)) :
    ts.length = ns.length ∧
    ∀ i : ℕ, (ts.get? i).map TreeNode.tid = (ns.get? i).map UpNode.nid := by
  induction ns generalizing ts d with
  | nil =>
    rw [fetchChildrenRecursively_nil] at h
    simp only [Except.ok.injEq, Prod.mk.injEq] at h
    rw [← h.1]
    exact ⟨rfl, fun i => rfl⟩
  | cons n rest ih =>
    rw [fetchChildrenRecursively_cons] at h
    cases hstep : fetchChildrenStep q n with
    | error e =>
      rw [hstep] at h
      simp [appendResult] at h
    | ok p =>
      obtain ⟨t, d1⟩ := p
      cases hrec : fetchChildrenRecursively q rest with
      | error e =>
        rw [hstep, hrec] at h
        simp [appendResult] at h
      | ok p2 =>
        obtain ⟨ts2, d2⟩ := p2
        rw [hstep, hrec] at h
        simp only [appendResult, Except.ok.injEq, Prod.mk.injEq] at h
        obtain ⟨hts, _⟩ := h
        obtain ⟨hlen, hids⟩ := ih ts2 d2 hrec
        obtain ⟨i0, nm0, ty0, ic0, ok0, cs0⟩ := n
        obtain ⟨kids, hkids⟩ :=
          fetchChildrenStep_fields q i0 nm0 ty0 ic0 ok0 cs0 t d1 hstep
        subst hkids
        rw [← hts]
        refine ⟨by simp [hlen], fun i => ?_⟩
        cases i with
        | zero => simp [TreeNode.tid, UpNode.nid]
        | succ j =>
          simp only [List.get?_cons_succ]
          exact hids j

/-! ### Claim C5 -/

/-- C5: the tree fetcher returns exactly one output node per input node in
the same order (here evidenced by matching lengths and identifiers); every
output node structurally carries a `children` sequence; a non-Folder node
triggers no upstream fetch (its result is the same for every upstream
behaviour) and has empty children; a Folder whose fetched detail has zero
children yields a present-but-empty children sequence; a Folder with
fetched children gets the recursive result attached as its children. -/
theorem tree_fetch_shape (q : ℤ) :
    (∀ (ns : List UpNode) (ts : List TreeNode) (d : ℚ),
        fetchChildrenRecursively q ns = .ok (ts, d) →
        ts.length = ns.length ∧
        ∀ i : ℕ, (ts.get? i).map TreeNode.tid = (ns.get? i).map UpNode.nid) ∧
    (∀ (i nm ty ic : String) (ok : Bool) (cs : List UpNode), ty ≠ "Folder" →
        fetchChildrenStep q (.mk i nm ty ic ok cs) =
          .ok (.mk i nm ty ic [], 0)) ∧
    (∀ i nm ic : String,
        fetchChildrenStep q (.mk i nm "Folder" ic true []) =
          .ok (.mk i nm "Folder" ic [], if 0 < q then 1 / (q : ℚ) else 0)) ∧
    (∀ (i nm ic : String) (c : UpNode) (rest : List UpNode)
        (ts : List TreeNode) (dc : ℚ),
        fetchChildrenRecursively q (c :: rest) = .ok (ts, dc) →
        fetchChildrenStep q (.mk i nm "Folder" ic true (c :: rest)) =
          .ok (.mk i nm "Folder" ic ts,
            (if 0 < q then 1 / (q : ℚ) else 0) + dc)) := by
  refine ⟨fun ns ts d h => fetchChildrenRecursively_shape q ns ts d h,
    fun i nm ty ic ok cs hty => ?_, fun i nm ic => ?_,
    fun i nm ic c rest ts dc h => ?_⟩
  · rw [fetchChildrenStep_eq, if_neg hty]
  · rw [fetchChildrenStep_eq, if_pos rfl, if_pos rfl]
    simp
  · rw [fetchChildrenStep_eq, if_pos rfl, if_pos rfl,
      if_neg (by simp : ¬ (c :: rest).isEmpty = true), h]
    rfl

/-- Evaluation of the fetch on one non-Folder node, used by the C5
witness. -/
theorem tree_fetch_eval_leaf :
    fetchChildrenRecursively 2 [UpNode.mk "c1" "leaf" "Datasheet" "i1" true []] =
      .ok ([TreeNode.mk "c1" "leaf" "Datasheet" "i1" []], 0) := by
  rw [fetchChildrenRecursively_cons, fetchChildrenRecursively_nil,
    fetchChildrenStep_eq]
  simp [appendResult]

/-- Witness for C5: a single non-Folder node; a Folder with zero children;
a Folder whose single fetched child is that non-Folder node. -/
theorem tree_fetch_shape_witness :
    (([TreeNode.mk "c1" "leaf" "Datasheet" "i1" []].length =
        [UpNode.mk "c1" "leaf" "Datasheet" "i1" true []].length) ∧
      ∀ i : ℕ,
        (([TreeNode.mk "c1" "leaf" "Datasheet" "i1" []].get? i).map TreeNode.tid) =
          (([UpNode.mk "c1" "leaf" "Datasheet" "i1" true []].get? i).map UpNode.nid)) ∧
    fetchChildrenStep 2 (.mk "c1" "leaf" "Datasheet" "i1" true []) =
      .ok (.mk "c1" "leaf" "Datasheet" "i1" [], 0) ∧
    fetchChildrenStep 2 (.mk "f0" "folder0" "Folder" "i0" true []) =
      .ok (.mk "f0" "folder0" "Folder" "i0" [],
        if 0 < (2 : ℤ) then 1 / ((2 : ℤ) : ℚ) else 0) ∧
    fetchChildrenStep 2
        (.mk "f1" "folder" "Folder" "i2"
          true [UpNode.mk "c1" "leaf" "Datasheet" "i1" true []]) =
      .ok (.mk "f1" "folder" "Folder" "i2"
          [TreeNode.mk "c1" "leaf" "Datasheet" "i1" []],
        (if 0 < (2 : ℤ) then 1 / ((2 : ℤ) : ℚ) else 0) + 0) :=
  ⟨(tree_fetch_shape 2).1 _ _ _ tree_fetch_eval_leaf,
   (tree_fetch_shape 2).2.1 "c1" "leaf" "Datasheet" "i1" true [] (by decide),
   (tree_fetch_shape 2).2.2.1 "f0" "folder0" "i0",
   (tree_fetch_shape 2).2.2.2 "f1" "folder" "i2" _ _ _ _ tree_fetch_eval_leaf⟩

/-! ### Claim C6 -/

/-- C6: when the traversal reaches a folder whose upstream detail fetch
fails — at any depth — the recursive fetch returns an error, the tree
endpoint (on a cache miss) answers with an error, and the cache is left
unchanged: no truncated or partial tree is returned or stored. -/
theorem tree_fetch_failure_aborts (q : ℤ) (ns : List UpNode) (sid : String)
    (c : CacheState (List TreeNode)) (now : ℚ)
    (hfail : listHasFailingFolder ns = true)
    (hmiss : dlookup c (get_cache_key "full_nodes_tree" [("space_id", sid)]) =
      none) :
    (∃ e, fetchChildrenRecursively q ns = .error e) ∧
    (∃ msg, (get_datasheets sid ns q c now).1 = .error msg) ∧
    (get_datasheets sid ns q c now).2 = c := by
  obtain ⟨e, he⟩ := fetchChildrenRecursively_fails q ns hfail
  refine ⟨⟨e, he⟩, ⟨fetchErrDetail e, ?_⟩, ?_⟩
  · simp only [get_datasheets, get_from_cache, hmiss, he]
  · simp only [get_datasheets, get_from_cache, hmiss, he]

/-- Hypothesis fact for the C6 witness: a single folder node whose detail
fetch fails is a failing folder. -/
theorem tree_fetch_failing_input :
    listHasFailingFolder [UpNode.mk "f1" "folder" "Folder" "i" false []] = true := by
  rw [listHasFailingFolder, nodeHasFailingFolder]
  simp

/-- Witness for C6: one failing folder at the top level, empty cache. -/
theorem tree_fetch_failure_aborts_witness :
    (∃ e, fetchChildrenRecursively 2
        [UpNode.mk "f1" "folder" "Folder" "i" false []] = .error e) ∧
    (∃ msg, (get_datasheets "spc"
        [UpNode.mk "f1" "folder" "Folder" "i" false []] 2 [] 0).1 =
      .error msg) ∧
    (get_datasheets "spc" [UpNode.mk "f1" "folder" "Folder" "i" false []]
        2 [] 0).2 = ([] : CacheState (List TreeNode)) :=
  tree_fetch_failure_aborts 2 [UpNode.mk "f1" "folder" "Folder" "i" false []]
    "spc" [] 0 tree_fetch_failing_input rfl

/-! ### Claim C10 -/

/-- C10: the `1 / quota` throttle is guarded by `quota > 0`, so the fetch
never raises a division-by-zero for any integer quota, and with a zero or
negative quota a folder is processed with no throttle delay at all (the
total slept delay of a successful fetch is 0). -/
theorem tree_fetch_quota_guard :
    (∀ (q : ℤ) (ns : List UpNode),
        fetchChildrenRecursively q ns ≠ Except.error FetchErr.divByZero) ∧
    (∀ (q : ℤ) (ns : List UpNode) (ts : List TreeNode) (d : ℚ), q ≤ 0 →
        fetchChildrenRecursively q ns = .ok (ts, d) → d = 0) :=
  ⟨fun q ns => fetchChildrenRecursively_no_div q ns,
   fun q ns ts d hq h => fetchChildrenRecursively_delay_zero q ns ts d hq h⟩

/-- Evaluation of the fetch of one folder node at quota 0, used by the C10
witness: no delay is slept and no division is attempted. -/
theorem tree_fetch_eval_quota0 :
    fetchChildrenRecursively 0 [UpNode.mk "f1" "folder" "Folder" "i" true []] =
      .ok ([TreeNode.mk "f1" "folder" "Folder" "i" []], 0) := by
  rw [fetchChildrenRecursively_cons, fetchChildrenRecursively_nil,
    fetchChildrenStep_eq]
  simp [appendResult]

/-- Witness for C10 at quota 0 on a Folder node. -/
theorem tree_fetch_quota_guard_witness :
    fetchChildrenRecursively 0 [UpNode.mk "f1" "folder" "Folder" "i" true []] ≠
        Except.error FetchErr.divByZero ∧
    (0 : ℚ) = 0 :=
  ⟨tree_fetch_quota_guard.1 0 [UpNode.mk "f1" "folder" "Folder" "i" true []],
   tree_fetch_quota_guard.2 0 [UpNode.mk "f1" "folder" "Folder" "i" true []]
     [TreeNode.mk "f1" "folder" "Folder" "i" []] 0 (by decide)
     tree_fetch_eval_quota0⟩

/-! ### Batch endpoint (POST `/batch`) -/

/-- One sub-operation of a batch request: its `type` tag, together with
the outcome of the upstream vika call it performs when its type is
recognised (`.ok` result data, or the `.error` message of the exception
the call raises). -/
structure BatchOp : Type where
  opType : String
  upstream : Except String String

/-- One element of the batch response array. -/
structure BatchItemResult : Type where
  success : Bool
  payload : String
  deriving DecidableEq, Repr

/-- Body of the per-operation `try`: dispatch on the operation type; a
recognised operation's upstream failure is captured as this item's error
result; an unrecognised type yields the unsupported-type error result.
Either way the loop continues with the next operation. -/
def runBatchOp (op : BatchOp) : BatchItemResult :=
  if op.opType = "create_record" ∨ op.opType = "update_record" ∨
      op.opType = "delete_record" then
    match op.upstream with
    | .ok d => ⟨true, d⟩
    | .error e => ⟨false, e⟩
  else ⟨false, "不支持的操作类型: " ++ op.opType⟩

/-- The loop of `batch_operations`, appending one result per operation. -/
def batchLoop : List BatchOp → List BatchItemResult
  | [] => []
  | op :: rest => runBatchOp op :: batchLoop rest

/-- Endpoint `batch_operations` (POST `/batch`): run every sub-operation collecting
per-item results, then `cache.clear()`. -/
def batch_operations {α : Type} (ops : List BatchOp) (_c : CacheState α) :
    List BatchItemResult × CacheState α :=
  (batchLoop ops, ([] : CacheState α))

/-! ### Claim C7 -/

/-- C7: the batch endpoint returns exactly one result per sub-operation in
input order; each item's result is a function of that sub-operation alone,
so one item's failure cannot abort or alter the others; an item succeeds
exactly when its type is recognised and its upstream call succeeds; and the
cache is empty after the batch regardless of the outcomes. -/
theorem batch_per_item_results (α : Type) (ops : List BatchOp)
    (c : CacheState α) :
    (batch_operations ops c).1.length = ops.length ∧
    (∀ i : ℕ, (batch_operations ops c).1.get? i = (ops.get? i).map runBatchOp) ∧
    (batch_operations ops c).2 = ([] : CacheState α) ∧
    (∀ op : BatchOp, (runBatchOp op).success = true ↔
        ((op.opType = "create_record" ∨ op.opType = "update_record" ∨
            op.opType = "delete_record") ∧ ∃ d, op.upstream = .ok d)) := by
  have hloop : ∀ l : List BatchOp, batchLoop l = l.map runBatchOp := by
    intro l
    induction l with
    | nil => rfl
    | cons x xs ih => simp [batchLoop, ih]
  refine ⟨?_, fun i => ?_, rfl, fun op => ?_⟩
  · simp [batch_operations, hloop]
  · simp [batch_operations, hloop]
  · unfold runBatchOp
    by_cases ht : op.opType = "create_record" ∨ op.opType = "update_record" ∨
        op.opType = "delete_record"
    · cases hu : op.upstream with
      | ok d => simp [ht, hu]
      | error e => simp [ht, hu]
    · simp [ht]

end VikaApiServer
